import Mathlib

/-!
Verification development for the elder-health API's identity and access
subsystem: the QR identity codec (src/utils/qrcode.js, here from the
unnamed source part), the JWT-based token service and auth middleware
(src/middleware/auth.js), the login route (src/routes/auth.js part), and
the in-memory sliding-window rate limiter.

JavaScript strings are modelled as Lean String, JS numbers occurring in
this subsystem as Int/Nat (no floating point is involved in any checked
property), and JSON.parse / JSON.stringify by an executable JSON model
below.  All definitions are structural or fuelled so that concrete inputs
evaluate by kernel reduction.
-/

/-- JSON values as produced by JSON.parse.  Numbers are restricted to
integers: the only numeric fields flowing through the codec are integral
profile ids. -/
inductive Json where
  | null : Json
  | bool (b : Bool) : Json
  | num (n : Int) : Json
  | str (s : String) : Json
  | arr (xs : List Json) : Json
  | obj (kvs : List (String × Json)) : Json

/-- Reading a field of a parsed JSON value, as JS property access does:
only objects carry the parsed keys (duplicate keys: last one wins, as in
JSON.parse); on every other value the access yields undefined, modelled
as none.  (On null the JS access throws a TypeError which the sources
catch; in every reachable branch the caught path and the none path
classify the input identically, since no valid JSON text can also match
the legacy "QR"-prefixed patterns.) -/
def jsGetField (j : Json) (k : String) : Option Json :=
  match j with
  | Json.obj kvs => List.lookup k kvs.reverse
  | _ => none

/-- JS truthiness of a possibly-undefined field value: undefined, null,
false, 0 and the empty string are falsy; everything else is truthy. -/
def jsTruthy : Option Json → Bool
  | none => false
  | some Json.null => false
  | some (Json.bool b) => b
  | some (Json.num n) => n != 0
  | some (Json.str s) => s != ""
  | some (Json.arr _) => true
  | some (Json.obj _) => true

/-- JS strict equality of a possibly-undefined field value against a
string literal, as in data.app === 'lansia-health'. -/
def jsStrictEqStr (j : Option Json) (s : String) : Bool :=
  match j with
  | some (Json.str t) => t == s
  | _ => false

/-- The opening-brace character, written numerically. -/
def braceL : Char := Char.ofNat 123

/-- The closing-brace character, written numerically. -/
def braceR : Char := Char.ofNat 125

/-- JSON whitespace accepted between tokens. -/
def isWsChar (c : Char) : Bool :=
  c == ' ' || c == '\t' || c == '\n' || c == '\r'

/-- Drop leading JSON whitespace. -/
def skipWs : List Char → List Char
  | [] => []
  | c :: cs => if isWsChar c then skipWs cs else c :: cs

/-- Decode one character escape inside a JSON string literal (the \\u
form is not modelled; no payload in this repository contains it). -/
def unescapeChar (c : Char) : Option Char :=
  if c = '"' then some '"'
  else if c = '\\' then some '\\'
  else if c = '/' then some '/'
  else if c = 'n' then some '\n'
  else if c = 't' then some '\t'
  else if c = 'r' then some '\r'
  else if c = 'b' then some (Char.ofNat 8)
  else if c = 'f' then some (Char.ofNat 12)
  else none

/-- Parse the body of a JSON string literal, after the opening quote:
returns the decoded characters and the remainder after the closing
quote. -/
def parseStrAux : List Char → Option (List Char × List Char)
  | [] => none
  | c :: cs =>
    if c = '"' then some ([], cs)
    else if c = '\\' then
      match cs with
      | [] => none
      | e :: cs2 =>
        match unescapeChar e, parseStrAux cs2 with
        | some ch, some (s, r) => some (ch :: s, r)
        | _, _ => none
    else
      match parseStrAux cs with
      | some (s, r) => some (c :: s, r)
      | none => none

/-- Consume a maximal run of decimal digits, folding them onto an
accumulator. -/
def parseDigitsAux : List Char → Nat → Nat × List Char
  | [], acc => (acc, [])
  | c :: cs, acc =>
    if c.isDigit then parseDigitsAux cs (acc * 10 + (c.toNat - 48)) else (acc, c :: cs)

/-- The body of the JSON value parser, over the next-level parsers. -/
def parseValueBody (pv : List Char → Option (Json × List Char))
    (pm : List Char → Option (List (String × Json) × List Char))
    (pe : List Char → Option (List Json × List Char)) :
    List Char → Option (Json × List Char) := fun cs =>
  match skipWs cs with
  | [] => none
  | c :: cs1 =>
    if c = '"' then
      match parseStrAux cs1 with
      | some (s, r) => some (Json.str (String.mk s), r)
      | none => none
    else if c = braceL then
      match skipWs cs1 with
      | [] => none
      | d :: cs2 =>
        if d = braceR then some (Json.obj [], cs2)
        else
          match pm (d :: cs2) with
          | some (kvs, r) => some (Json.obj kvs, r)
          | none => none
    else if c = '[' then
      match skipWs cs1 with
      | [] => none
      | d :: cs2 =>
        if d = ']' then some (Json.arr [], cs2)
        else
          match pe (d :: cs2) with
          | some (xs, r) => some (Json.arr xs, r)
          | none => none
    else if c = 'n' then
      match cs1 with
      | 'u' :: 'l' :: 'l' :: r => some (Json.null, r)
      | _ => none
    else if c = 't' then
      match cs1 with
      | 'r' :: 'u' :: 'e' :: r => some (Json.bool true, r)
      | _ => none
    else if c = 'f' then
      match cs1 with
      | 'a' :: 'l' :: 's' :: 'e' :: r => some (Json.bool false, r)
      | _ => none
    else if c = '-' then
      match cs1 with
      | d :: cs2 =>
        if d.isDigit then
          let p := parseDigitsAux cs2 (d.toNat - 48)
          some (Json.num (-(p.1 : Int)), p.2)
        else none
      | [] => none
    else if c.isDigit then
      let p := parseDigitsAux cs1 (c.toNat - 48)
      some (Json.num (p.1 : Int), p.2)
    else none

/-- The body of the JSON object-member parser, over the next-level
parsers; positioned at the first key of a nonempty member list. -/
def parseMembersBody (pv : List Char → Option (Json × List Char))
    (pm : List Char → Option (List (String × Json) × List Char)) :
    List Char → Option (List (String × Json) × List Char) := fun cs =>
  match skipWs cs with
  | [] => none
  | c :: cs1 =>
    if c = '"' then
      match parseStrAux cs1 with
      | some (k, cs2) =>
        (match skipWs cs2 with
         | ':' :: cs3 =>
           (match pv cs3 with
            | some (v, cs4) =>
              (match skipWs cs4 with
               | d :: cs5 =>
                 if d = ',' then
                   match pm cs5 with
                   | some (kvs, r) => some ((String.mk k, v) :: kvs, r)
                   | none => none
                 else if d = braceR then some ([(String.mk k, v)], cs5)
                 else none
               | [] => none)
            | none => none)
         | _ => none)
      | none => none
    else none

/-- The body of the JSON array-element parser, over the next-level
parsers; positioned at the first element of a nonempty element list. -/
def parseElemsBody (pv : List Char → Option (Json × List Char))
    (pe : List Char → Option (List Json × List Char)) :
    List Char → Option (List Json × List Char) := fun cs =>
  match pv cs with
  | some (v, cs1) =>
    (match skipWs cs1 with
     | d :: cs2 =>
       if d = ',' then
         match pe cs2 with
         | some (xs, r) => some (v :: xs, r)
         | none => none
       else if d = ']' then some ([v], cs2)
       else none
     | [] => none)
  | none => none

/-- The mutually recursive JSON parsers (value, object members, array
elements), indexed by fuel so that recursion is structural and concrete
inputs reduce in the kernel.  Fuel decreases on every inner call; the
top-level entry point supplies input length plus one, which is always
sufficient. -/
def jsonParsers : Nat →
    (List Char → Option (Json × List Char)) ×
    (List Char → Option (List (String × Json) × List Char)) ×
    (List Char → Option (List Json × List Char))
  | 0 => (fun _ => none, fun _ => none, fun _ => none)
  | f + 1 =>
    (parseValueBody (jsonParsers f).1 (jsonParsers f).2.1 (jsonParsers f).2.2,
      parseMembersBody (jsonParsers f).1 (jsonParsers f).2.1,
      parseElemsBody (jsonParsers f).1 (jsonParsers f).2.2)

/-- Fuel-indexed JSON value parser. -/
def parseValueF (f : Nat) : List Char → Option (Json × List Char) :=
  (jsonParsers f).1

/-- Fuel-indexed JSON object-member parser (positioned at the first key,
after an opening brace that was not immediately closed). -/
def parseMembersF (f : Nat) : List Char → Option (List (String × Json) × List Char) :=
  (jsonParsers f).2.1

/-- Model of JSON.parse on the texts this subsystem handles: parses one
JSON value and requires only whitespace to remain; any failure (which
JSON.parse signals by throwing) is none. -/
def jsonParse (s : String) : Option Json :=
  match parseValueF (s.toList.length + 1) s.toList with
  | some (v, r) => if skipWs r = [] then some v else none
  | none => none

/-- Escape one character for a JSON string literal, as JSON.stringify
does for the quote and backslash (the payloads this repository
serializes contain no control characters requiring further escapes). -/
def escChar (c : Char) : List Char :=
  if c = '"' then ['\\', '"']
  else if c = '\\' then ['\\', '\\']
  else [c]

/-- Escape a character list for embedding in a JSON string literal. -/
def escapeChars : List Char → List Char
  | [] => []
  | c :: cs => escChar c ++ escapeChars cs

/-- The decimal digit character for a value below ten. -/
def digitChar (n : Nat) : Char := Char.ofNat (48 + n)

/-- Fuelled most-significant-first decimal rendering of a natural. -/
def natDigitsAux : Nat → Nat → List Char
  | 0, _ => []
  | f + 1, n => if n < 10 then [digitChar n] else natDigitsAux f (n / 10) ++ [digitChar (n % 10)]

/-- Decimal rendering of a natural number. -/
def natChars (n : Nat) : List Char := natDigitsAux (n + 1) n

/-- JSON.stringify on the scalar values this repository serializes
(the profile payload is a flat object of strings and an integral id, so
nested containers never occur as serialized values here). -/
def stringifyScalar : Json → List Char
  | Json.null => ['n', 'u', 'l', 'l']
  | Json.bool true => ['t', 'r', 'u', 'e']
  | Json.bool false => ['f', 'a', 'l', 's', 'e']
  | Json.num n => if n < 0 then '-' :: natChars (-n).toNat else natChars n.toNat
  | Json.str s => '"' :: (escapeChars s.toList ++ ['"'])
  | Json.arr _ => []
  | Json.obj _ => []

/-- The comma-separated member list of a serialized flat JSON object. -/
def memberChars : List (String × Json) → List Char
  | [] => []
  | [(k, v)] => '"' :: (escapeChars k.toList ++ '"' :: ':' :: stringifyScalar v)
  | (k, v) :: rest =>
    ('"' :: (escapeChars k.toList ++ '"' :: ':' :: stringifyScalar v)) ++ ',' :: memberChars rest

/-- JSON.stringify of a flat object of scalar fields, in field order. -/
def stringifyFlatObj (kvs : List (String × Json)) : List Char :=
  braceL :: (memberChars kvs ++ [braceR])

/-- The field list of the profile QR payload built by createProfileQRData:
type, id, name, timestamp, app, in source order. -/
def profileQRFields (profileId : Nat) (profileName timestamp : String) : List (String × Json) :=
  [("type", Json.str "profile"), ("id", Json.num profileId), ("name", Json.str profileName),
    ("timestamp", Json.str timestamp), ("app", Json.str "lansia-health")]

/-- createProfileQRData(profileId, profileName): JSON.stringify of the
payload object.  The timestamp field, new Date().toISOString() in the
source, is an explicit parameter here. -/
def createProfileQRData (profileId : Nat) (profileName : String) (timestamp : String) : String :=
  String.mk (stringifyFlatObj (profileQRFields profileId profileName timestamp))

/-- Result of parseQRData: success with the parsed structured payload,
success with a backward-compatible legacy id (the source returns
the object with type profile, the extracted id, and legacy set), or the
failure result. -/
inductive QRResult where
  | structured (data : Json)
  | legacy (id : String)
  | invalid

/-- Test of the anchored legacy pattern used by parseQRData: the whole
string is the literal prefix QR followed by one or more digits. -/
def legacyFullMatch (s : String) : Bool :=
  match s.toList with
  | c1 :: c2 :: rest => c1 = 'Q' && c2 = 'R' && !rest.isEmpty && rest.all (fun c => c.isDigit)
  | _ => false

/-- Test of the unanchored legacy pattern used by validateQRFormat: the
string starts with the literal prefix QR followed by at least one digit,
arbitrary trailing content allowed. -/
def legacyPrefixTest (s : String) : Bool :=
  match s.toList with
  | c1 :: c2 :: c3 :: _ => c1 = 'Q' && c2 = 'R' && c3.isDigit
  | _ => false

/-- JS String.prototype.replace with a string pattern: replaces the
first occurrence only. -/
def replaceOnceAux : List Char → List Char → List Char → List Char
  | [], _, _ => []
  | c :: cs, pat, repl =>
    if pat.isPrefixOf (c :: cs) then repl ++ (c :: cs).drop pat.length
    else c :: replaceOnceAux cs pat repl

/-- qrString.replace(pat, repl) for string patterns: first occurrence. -/
def replaceOnce (s pat repl : String) : String :=
  String.mk (replaceOnceAux s.toList pat.toList repl.toList)

/-- parseQRData(qrString): try JSON.parse; on success reject unless type
and id are truthy and the app tag strictly equals the constant; on parse
failure fall back to the anchored legacy pattern, extracting the id by
replacing the first QR occurrence with the empty string. -/
def parseQRData (qrString : String) : QRResult :=
  match jsonParse qrString with
  | some data =>
    if !jsTruthy (jsGetField data "type") || !jsTruthy (jsGetField data "id")
        || !jsStrictEqStr (jsGetField data "app") "lansia-health" then
      QRResult.invalid
    else
      QRResult.structured data
  | none =>
    if legacyFullMatch qrString then QRResult.legacy (replaceOnce qrString "QR" "")
    else QRResult.invalid

/-- validateQRFormat(qrString): false for the empty string (the source
guards falsy and non-string inputs); on JSON parse success the truthy
chain over type, id and the strict app comparison; on parse failure the
unanchored legacy pattern test. -/
def validateQRFormat (qrString : String) : Bool :=
  if qrString == "" then false
  else
    match jsonParse qrString with
    | some data =>
      jsTruthy (jsGetField data "type") && jsTruthy (jsGetField data "id")
        && jsStrictEqStr (jsGetField data "app") "lansia-health"
    | none => legacyPrefixTest qrString

/-- The user-supplied claims signed into a session token: userId,
username, role. -/
structure Claims where
  userId : Nat
  username : String
  role : String
deriving DecidableEq

/-- The full signed payload: the claims plus the issued-at and expiry
timestamps (seconds, as the jwt library uses). -/
structure JwtPayload where
  claims : Claims
  iat : Int
  exp : Int
deriving DecidableEq

/-- A compact-serialized JWT as seen by jwt.verify: either three
well-formed segments carrying a decodable payload and a signature, or a
structurally corrupt string (wrong segment count, undecodable body). -/
inductive Token where
  | signed (payload : JwtPayload) (sig : Nat)
  | malformed (raw : String)
deriving DecidableEq

/-- The failures jwt.verify distinguishes by thrown error type. -/
inductive JwtError where
  | malformed
  | signatureInvalid
  | expired
deriving DecidableEq

/-- A simple deterministic string hash, used to model the HMAC. -/
def strHash (s : String) : Nat :=
  s.toList.foldl (fun a c => a * 131 + c.toNat) 7

/-- Model of the HMAC signature over the serialized payload under the
process-wide secret. -/
def macSig (secret : String) (p : JwtPayload) : Nat :=
  strHash secret * 1000003 + strHash p.claims.username * 10007
    + strHash p.claims.role * 101 + p.claims.userId * 31 + (p.iat + p.exp).natAbs

/-- Model of jwt.sign(payload, secret, expiresIn): embeds issued-at and
expiry and signs the body with the secret. -/
def jwtSign (claims : Claims) (secret : String) (expiresIn : Int) (now : Int) : Token :=
  Token.signed ⟨claims, now, now + expiresIn⟩ (macSig secret ⟨claims, now, now + expiresIn⟩)

/-- Model of jwt.verify(token, secret): a structurally corrupt token is
rejected as malformed; then the signature is checked before any claim is
trusted; then an elapsed expiry is rejected as expired; otherwise the
payload is returned. -/
def jwtVerify (t : Token) (secret : String) (now : Int) : Except JwtError JwtPayload :=
  match t with
  | Token.malformed _ => Except.error JwtError.malformed
  | Token.signed p sig =>
    if sig ≠ macSig secret p then Except.error JwtError.signatureInvalid
    else if p.exp ≤ now then Except.error JwtError.expired
    else Except.ok p

/-- generateToken(payload): jwt.sign under the process secret with the
configured expiry. -/
def generateToken (payload : Claims) (secret : String) (expiresIn : Int) (now : Int) : Token :=
  jwtSign payload secret expiresIn now

/-- verifyToken(token): jwt.verify wrapped in try/catch, returning the
decoded payload or null on any error whatsoever. -/
def verifyToken (token : Token) (secret : String) (now : Int) : Option JwtPayload :=
  match jwtVerify token secret now with
  | Except.ok p => some p
  | Except.error _ => none

/-- The row selected by the authenticate middleware: id, username, role,
is_active. -/
structure AuthUser where
  id : Nat
  username : String
  role : String
  is_active : Bool
deriving DecidableEq

/-- The Authorization header of an inbound request: absent, present
without the Bearer prefix, or a bearer token (the remainder after the
prefix, parsed as a compact JWT). -/
inductive AuthHeader where
  | missing
  | notBearer (value : String)
  | bearer (token : Token)

/-- Outcome of the authenticate middleware: an error response with its
status and message, or req.user set to the looked-up row and next()
called. -/
inductive AuthOutcome where
  | unauthorized (status : Nat) (message : String)
  | ok (principal : AuthUser)

/-- The authenticate middleware: require a Bearer header, verify the
token, look the subject up by the claims' userId and require the row to
exist and be active, then attach the row as the request principal.  The
persistence lookup getOne is modelled by the findUserById collaborator
(none models a success:false result). -/
def authenticate (header : AuthHeader) (secret : String) (now : Int)
    (findUserById : Nat → Option AuthUser) : AuthOutcome :=
  match header with
  | AuthHeader.missing => AuthOutcome.unauthorized 401 "Access token required"
  | AuthHeader.notBearer _ => AuthOutcome.unauthorized 401 "Access token required"
  | AuthHeader.bearer token =>
    match verifyToken token secret now with
    | none => AuthOutcome.unauthorized 401 "Invalid or expired token"
    | some decoded =>
      match findUserById decoded.claims.userId with
      | none => AuthOutcome.unauthorized 401 "User not found or inactive"
      | some user =>
        if !user.is_active then AuthOutcome.unauthorized 401 "User not found or inactive"
        else AuthOutcome.ok user

/-- The row selected by the login route: id, username, password hash,
role, posyandu_name, is_active. -/
structure LoginUser where
  id : Nat
  username : String
  password : String
  role : String
  posyandu_name : String
  is_active : Bool

/-- Outcome of the login route: an error response with status and
message, or a fresh token plus the user payload of the success body. -/
inductive LoginOutcome where
  | fail (status : Nat) (message : String)
  | success (token : Token) (user : LoginUser)

/-- The POST /api/auth/login handler body after validation and rate
limiting: look the user up by username (none models the success:false
lookup result), require the active flag, verify the password with the
bcrypt collaborator, then issue a token over userId, username and role.
The last_login update is a write the outcome does not depend on. -/
def login (username password : String) (findUserByUsername : String → Option LoginUser)
    (bcryptCompare : String → String → Bool) (secret : String) (expiresIn now : Int) :
    LoginOutcome :=
  match findUserByUsername username with
  | none => LoginOutcome.fail 401 "Invalid credentials"
  | some user =>
    if !user.is_active then LoginOutcome.fail 401 "Account is deactivated"
    else if !bcryptCompare password user.password then LoginOutcome.fail 401 "Invalid credentials"
    else LoginOutcome.success (generateToken ⟨user.id, user.username, user.role⟩ secret expiresIn now) user

/-- The rate limiter window: 15 minutes in milliseconds. -/
def windowMs : Int := 15 * 60 * 1000

/-- The rate limiter bound on attempts per window. -/
def rateMaxAttempts : Nat := 5

/-- One call of the sensitiveOperationLimit middleware for a given key
at the current time over the global store (a total map from keys to
timestamp lists, empty lists standing for absent keys): prune timestamps
outside the trailing window, deny when the bound is reached (leaving the
store untouched), otherwise append now and admit. -/
def sensitiveOperationLimit (key : String) (now : Int) (store : String → List Int) :
    Bool × (String → List Int) :=
  let userAttempts := store key
  let recentAttempts := userAttempts.filter (fun time => now - time < windowMs)
  if rateMaxAttempts ≤ recentAttempts.length then (false, store)
  else (true, fun k => if k = key then recentAttempts ++ [now] else store k)

/-- The store of a fresh process: no key has recorded attempts. -/
def emptyRateStore : String → List Int := fun _ => []

/-- Run a sequence of limiter calls (key, time) over a store, threading
the store state. -/
def runLimiter : List (String × Int) → (String → List Int) → (String → List Int)
  | [], store => store
  | (k, t) :: rest, store => runLimiter rest (sensitiveOperationLimit k t store).2

/-- The admitted/denied results of a sequence of limiter calls. -/
def limiterResults : List (String × Int) → (String → List Int) → List Bool
  | [], _ => []
  | (k, t) :: rest, store =>
    (sensitiveOperationLimit k t store).1 :: limiterResults rest (sensitiveOperationLimit k t store).2

/-- One limiter call projected onto the attempt list of its own key. -/
def solList (now : Int) (l : List Int) : Bool × List Int :=
  let recent := l.filter (fun time => now - time < windowMs)
  if rateMaxAttempts ≤ recent.length then (false, l) else (true, recent ++ [now])

/-- True when parseQRData succeeds (Structured or Legacy). -/
def qrDecodeOk (s : String) : Bool :=
  match parseQRData s with
  | QRResult.invalid => false
  | _ => true

/-- The head of a character list is not a digit (vacuously true for the
empty list); controls where maximal-munch digit parsing stops. -/
def headNotDigit (l : List Char) : Prop :=
  ∀ c, l.head? = some c → c.isDigit = false

/-- The scalar JSON values serialized by this repository: strings and
nonnegative integers. -/
def scalarForQR : Json → Prop
  | Json.str _ => True
  | Json.num n => 0 ≤ n
  | _ => False

/-- Claim C6: for every claims set and every positive ttl, verifying a
token issued over those claims before the expiry has elapsed succeeds
and returns the claims unchanged (inside the signed payload that also
carries issued-at and expiry). -/
theorem verify_issue_roundtrip (c : Claims) (secret : String) (ttl now now2 : Int)
    (h1 : 0 < ttl) (h2 : now2 < now + ttl) :
    verifyToken (generateToken c secret ttl now) secret now2 = some ⟨c, now, now + ttl⟩ := by
  have hne : ¬(now + ttl ≤ now2) := by omega
  simp [verifyToken, generateToken, jwtSign, jwtVerify, hne]

theorem verify_issue_roundtrip_witness :
    verifyToken (generateToken ⟨7, "kader1", "kader"⟩ "s" 86400 0) "s" 100
      = some ⟨⟨7, "kader1", "kader"⟩, 0, 86400⟩ :=
  verify_issue_roundtrip ⟨7, "kader1", "kader"⟩ "s" 86400 0 100 (by decide) (by decide)

/-- Counterexample for claim C1: the repository's verifyToken returns the
same result, null, for an expired token, a malformed token and a
bad-signature token, so its result does not distinguish the three
failure outcomes the claim describes. -/
theorem verify_collapse_cex :
    verifyToken (generateToken ⟨1, "u", "kader"⟩ "s" 10 0) "s" 100 = none ∧
    verifyToken (Token.malformed "x") "s" 100 = none ∧
    verifyToken
      (Token.signed ⟨⟨1, "u", "kader"⟩, 0, 10⟩ (macSig "s" ⟨⟨1, "u", "kader"⟩, 0, 10⟩ + 1))
      "s" 100 = none := by
  refine ⟨by decide, rfl, by decide⟩

/-- Claim C1 (amended): the underlying jwt verification distinguishes
the three failure outcomes exactly as described — structural corruption
is Malformed, a failed signature check on a structurally sound token is
SignatureInvalid, and a validly signed token past its expiry is Expired,
never SignatureInvalid or Malformed — but the repository's verifyToken
wrapper catches every failure and returns null, so the caller observes
claims-or-null only. -/
theorem jwt_failures_distinguished_but_collapsed :
    (∀ raw secret now, jwtVerify (Token.malformed raw) secret now = Except.error JwtError.malformed) ∧
    (∀ p sig secret now, sig ≠ macSig secret p →
      jwtVerify (Token.signed p sig) secret now = Except.error JwtError.signatureInvalid) ∧
    (∀ c secret ttl now now2, now + ttl ≤ now2 →
      jwtVerify (generateToken c secret ttl now) secret now2 = Except.error JwtError.expired ∧
      verifyToken (generateToken c secret ttl now) secret now2 = none) := by
  refine ⟨fun raw secret now => rfl, fun p sig secret now h => by simp [jwtVerify, h], ?_⟩
  intro c secret ttl now now2 h
  constructor
  · simp [generateToken, jwtSign, jwtVerify, h]
  · simp [verifyToken, generateToken, jwtSign, jwtVerify, h]

theorem jwt_failures_witness :
    jwtVerify (generateToken ⟨1, "u", "kader"⟩ "s" 10 0) "s" 100 = Except.error JwtError.expired ∧
    verifyToken (generateToken ⟨1, "u", "kader"⟩ "s" 10 0) "s" 100 = none :=
  jwt_failures_distinguished_but_collapsed.2.2 ⟨1, "u", "kader"⟩ "s" 10 0 100 (by decide)

/-- Claim C7: the authenticate middleware follows the ordered decision
procedure — missing or non-Bearer header is Unauthorized; a token that
fails verification for any reason is Unauthorized; an unknown or
inactive subject is Unauthorized; otherwise the looked-up user row is
attached as the request principal. -/
theorem authenticate_decision_procedure (secret : String) (now : Int)
    (db : Nat → Option AuthUser) :
    (authenticate AuthHeader.missing secret now db
      = AuthOutcome.unauthorized 401 "Access token required") ∧
    (∀ s, authenticate (AuthHeader.notBearer s) secret now db
      = AuthOutcome.unauthorized 401 "Access token required") ∧
    (∀ t, verifyToken t secret now = none →
      authenticate (AuthHeader.bearer t) secret now db
        = AuthOutcome.unauthorized 401 "Invalid or expired token") ∧
    (∀ t p, verifyToken t secret now = some p → db p.claims.userId = none →
      authenticate (AuthHeader.bearer t) secret now db
        = AuthOutcome.unauthorized 401 "User not found or inactive") ∧
    (∀ t p u, verifyToken t secret now = some p → db p.claims.userId = some u →
      u.is_active = false →
      authenticate (AuthHeader.bearer t) secret now db
        = AuthOutcome.unauthorized 401 "User not found or inactive") ∧
    (∀ t p u, verifyToken t secret now = some p → db p.claims.userId = some u →
      u.is_active = true →
      authenticate (AuthHeader.bearer t) secret now db = AuthOutcome.ok u) := by
  refine ⟨rfl, fun s => rfl, ?_, ?_, ?_, ?_⟩
  · intro t ht
    simp [authenticate, ht]
  · intro t p ht hd
    simp [authenticate, ht, hd]
  · intro t p u ht hd hu
    simp [authenticate, ht, hd, hu]
  · intro t p u ht hd hu
    simp [authenticate, ht, hd, hu]

theorem authenticate_decision_witness :
    authenticate (AuthHeader.bearer (generateToken ⟨7, "kader1", "kader"⟩ "s" 86400 0)) "s" 100
      (fun i => if i = 7 then some ⟨7, "kader1", "kader", true⟩ else none)
      = AuthOutcome.ok ⟨7, "kader1", "kader", true⟩ :=
  (authenticate_decision_procedure "s" 100
      (fun i => if i = 7 then some ⟨7, "kader1", "kader", true⟩ else none)).2.2.2.2.2
    (generateToken ⟨7, "kader1", "kader"⟩ "s" 86400 0) ⟨⟨7, "kader1", "kader"⟩, 0, 86400⟩
    ⟨7, "kader1", "kader", true⟩ (by decide) (by decide) rfl

/-- Counterexample for claim C8: the 401 message for an invalid or
expired token differs from the 401 message for an unknown-or-inactive
user, and in the login route the unknown-user message differs from the
deactivated-account message, so the failure messages do reveal the
sub-case. -/
theorem auth_messages_differ_cex :
    authenticate (AuthHeader.bearer (Token.malformed "x")) "s" 0 (fun _ => none)
      = AuthOutcome.unauthorized 401 "Invalid or expired token" ∧
    authenticate (AuthHeader.bearer (generateToken ⟨1, "u", "kader"⟩ "s" 10 0)) "s" 0
      (fun _ => none)
      = AuthOutcome.unauthorized 401 "User not found or inactive" ∧
    "Invalid or expired token" ≠ "User not found or inactive" ∧
    login "alice" "pw" (fun _ => none) (fun _ _ => true) "s" 10 0
      = LoginOutcome.fail 401 "Invalid credentials" ∧
    login "alice" "pw" (fun _ => some ⟨1, "alice", "h", "kader", "p", false⟩)
      (fun _ _ => true) "s" 10 0
      = LoginOutcome.fail 401 "Account is deactivated" ∧
    "Invalid credentials" ≠ "Account is deactivated" :=
  ⟨rfl, rfl, by decide, rfl, rfl, by decide⟩

/-- Claim C8 (amended): every authentication failure of the
authenticate middleware and of the login route is surfaced with HTTP
status 401, but the message strings are not uniform across sub-cases
(see the counterexample). -/
theorem auth_failures_all_401 :
    (∀ header secret now db st m,
      authenticate header secret now db = AuthOutcome.unauthorized st m → st = 401) ∧
    (∀ u p fu bc secret ei now st m,
      login u p fu bc secret ei now = LoginOutcome.fail st m → st = 401) := by
  constructor
  · intro header secret now db st m h
    cases header with
    | missing => simp [authenticate] at h; omega
    | notBearer s => simp [authenticate] at h; omega
    | bearer t =>
      cases hv : verifyToken t secret now with
      | none => simp [authenticate, hv] at h; omega
      | some p =>
        cases hd : db p.claims.userId with
        | none => simp [authenticate, hv, hd] at h; omega
        | some u =>
          by_cases hu : u.is_active
          · simp [authenticate, hv, hd, hu] at h
          · simp [authenticate, hv, hd, hu] at h; omega
  · intro u p fu bc secret ei now st m h
    cases hf : fu u with
    | none => simp [login, hf] at h; omega
    | some usr =>
      by_cases ha : usr.is_active
      · by_cases hb : bc p usr.password
        · simp [login, hf, ha, hb] at h
        · simp [login, hf, ha, hb] at h; omega
      · simp [login, hf, ha] at h; omega

theorem auth_failures_all_401_witness : (401 : Nat) = 401 :=
  auth_failures_all_401.1 AuthHeader.missing "s" 0 (fun _ => none) 401 "Access token required" rfl

/-- The results of a single-key run depend only on that key's list. -/
theorem limiterResults_single_key (k : String) :
    ∀ (ts : List Int) (s : String → List Int),
      limiterResults (ts.map (fun t => (k, t))) s
        = (ts.foldr (fun t rec l => (solList t l).1 :: rec (solList t l).2)
            (fun _ => []) : List Int → List Bool) (s k) := by
  intro ts
  induction ts with
  | nil => intro s; rfl
  | cons t ts ih =>
    intro s
    have hstore : ((sensitiveOperationLimit k t s).2) k = (solList t (s k)).2 := by
      simp only [sensitiveOperationLimit, solList]
      split
      · rfl
      · simp
    have hfst : (sensitiveOperationLimit k t s).1 = (solList t (s k)).1 := by
      simp only [sensitiveOperationLimit, solList]
      split <;> rfl
    simp only [List.map, limiterResults, List.foldr, hfst]
    rw [ih, hstore]

/-- Claim C3: for any key, starting with no recorded attempts, five
consecutive allow calls within the window all succeed, the sixth call
within the window fails, and a call made after the window has fully
elapsed from the first recorded attempt succeeds again. -/
theorem rateLimiter_scenario (k : String) (t1 t2 t3 t4 t5 t6 t7 : Int)
    (h12 : t1 ≤ t2) (h23 : t2 ≤ t3) (h34 : t3 ≤ t4) (h45 : t4 ≤ t5) (h56 : t5 ≤ t6)
    (hwin : t6 - t1 < windowMs) (hrest : t1 + windowMs ≤ t7) :
    limiterResults [(k, t1), (k, t2), (k, t3), (k, t4), (k, t5), (k, t6), (k, t7)]
      emptyRateStore = [true, true, true, true, true, false, true] := by
  have w21 : t2 - t1 < windowMs := by omega
  have w31 : t3 - t1 < windowMs := by omega
  have w32 : t3 - t2 < windowMs := by omega
  have w41 : t4 - t1 < windowMs := by omega
  have w42 : t4 - t2 < windowMs := by omega
  have w43 : t4 - t3 < windowMs := by omega
  have w51 : t5 - t1 < windowMs := by omega
  have w52 : t5 - t2 < windowMs := by omega
  have w53 : t5 - t3 < windowMs := by omega
  have w54 : t5 - t4 < windowMs := by omega
  have w61 : t6 - t1 < windowMs := by omega
  have w62 : t6 - t2 < windowMs := by omega
  have w63 : t6 - t3 < windowMs := by omega
  have w64 : t6 - t4 < windowMs := by omega
  have w65 : t6 - t5 < windowMs := by omega
  have w71 : ¬(t7 - t1 < windowMs) := by omega
  have hmap : [(k, t1), (k, t2), (k, t3), (k, t4), (k, t5), (k, t6), (k, t7)]
      = [t1, t2, t3, t4, t5, t6, t7].map (fun t => (k, t)) := rfl
  rw [hmap, limiterResults_single_key k]
  simp only [List.foldr, emptyRateStore]
  simp [solList, rateMaxAttempts, w21, w31, w32, w41, w42, w43, w51, w52, w53, w54,
    w61, w62, w63, w64, w65, w71]
  have hlen : (List.filter (fun time => decide (t7 - time < windowMs)) [t2, t3, t4, t5]).length ≤ 4 := by
    simpa using List.length_filter_le (fun time => decide (t7 - time < windowMs)) [t2, t3, t4, t5]
  rw [if_neg (by omega)]

/-- Witness for the rate limiter scenario at concrete times. -/
theorem rateLimiter_scenario_witness :
    limiterResults [("a", 0), ("a", 0), ("a", 0), ("a", 0), ("a", 0), ("a", 0), ("a", 900000)]
      emptyRateStore = [true, true, true, true, true, false, true] :=
  rateLimiter_scenario "a" 0 0 0 0 0 0 900000 (by decide) (by decide) (by decide) (by decide)
    (by decide) (by decide) (by decide)

/-- One limiter call keeps every key's stored list within the attempt
bound. -/
theorem sol_len_le (k : String) (t : Int) (s : String → List Int)
    (h : ∀ x, (s x).length ≤ rateMaxAttempts) :
    ∀ x, (((sensitiveOperationLimit k t s).2) x).length ≤ rateMaxAttempts := by
  intro x
  simp only [sensitiveOperationLimit]
  split
  · exact h x
  · rename_i hc
    by_cases hx : x = k
    · subst hx
      have hfl := List.length_filter_le (fun time => decide (t - time < windowMs)) (s x)
      simp only [rateMaxAttempts] at hc ⊢
      simp
      omega
    · simp only [if_neg hx]
      exact h x

/-- Any sequence of limiter calls keeps every key's stored list within
the attempt bound. -/
theorem runLimiter_len_le :
    ∀ (calls : List (String × Int)) (s : String → List Int),
      (∀ x, (s x).length ≤ rateMaxAttempts) →
      ∀ x, ((runLimiter calls s) x).length ≤ rateMaxAttempts := by
  intro calls
  induction calls with
  | nil => intro s h x; exact h x
  | cons c rest ih =>
    intro s h x
    exact ih _ (sol_len_le c.1 c.2 s h) x

/-- Claim C9: after any call of the rate limiter, made after any prior
sequence of calls from the empty store, the timestamp list stored for
that call's key contains only timestamps within the trailing window
measured from the call's current time, and its length is at most the
max-attempts bound. -/
theorem rateLimiter_invariant (prior : List (String × Int)) (k : String) (t : Int) :
    (∀ x ∈ ((sensitiveOperationLimit k t (runLimiter prior emptyRateStore)).2) k,
      t - x < windowMs) ∧
    (((sensitiveOperationLimit k t (runLimiter prior emptyRateStore)).2) k).length
      ≤ rateMaxAttempts := by
  have hlen : ((runLimiter prior emptyRateStore) k).length ≤ rateMaxAttempts :=
    runLimiter_len_le prior emptyRateStore (fun x => by simp [emptyRateStore]) k
  set s := runLimiter prior emptyRateStore with hs
  simp only [sensitiveOperationLimit]
  split
  · rename_i hc
    have hfl : (List.filter (fun time => decide (t - time < windowMs)) (s k)).length
        = (s k).length := by
      have := List.length_filter_le (fun time => decide (t - time < windowMs)) (s k)
      omega
    have hall := List.filter_length_eq_length.mp hfl
    constructor
    · intro x hx
      have := hall x hx
      exact of_decide_eq_true this
    · exact hlen
  · rename_i hc
    constructor
    · intro x hx
      simp only [List.mem_append] at hx
      simp at hx
      rcases hx with ⟨hmem, hlt⟩ | hxt
      · exact hlt
      · subst hxt
        have hw : windowMs = 900000 := rfl
        omega
    · have hfl := List.length_filter_le (fun time => decide (t - time < windowMs)) (s k)
      simp
      omega

theorem rateLimiter_invariant_witness : (5 : Int) - 0 < windowMs :=
  (rateLimiter_invariant [("a", 0)] "a" 5).1 0 (by decide)

/-- Counterexample for claim C2: the string QR42x is accepted by
validate (unanchored legacy pattern) yet classified Invalid by decode
(anchored legacy pattern), so the two legacy rules are not the same and
the claimed equivalence fails. -/
theorem decode_validate_disagree_cex :
    validateQRFormat "QR42x" = true ∧ parseQRData "QR42x" = QRResult.invalid :=
  ⟨rfl, rfl⟩

/-- Claim C2 (amended): whenever decode(s) is Structured or Legacy,
validate(s) is true; the converse fails because validate additionally
accepts strings matching the unanchored legacy pattern with trailing
characters, which decode classifies Invalid (see the counterexample). -/
theorem decode_ok_implies_validate (s : String) (h : qrDecodeOk s = true) :
    validateQRFormat s = true := by
  unfold qrDecodeOk at h
  cases hj : jsonParse s with
  | some data =>
    by_cases hc : (!jsTruthy (jsGetField data "type") || !jsTruthy (jsGetField data "id")
        || !jsStrictEqStr (jsGetField data "app") "lansia-health") = true
    · simp [parseQRData, hj, hc] at h
    · have hs : s ≠ "" := by
        intro he
        rw [he] at hj
        exact Option.noConfusion ((rfl : jsonParse "" = none).symm.trans hj)
      simp only [Bool.or_eq_true, Bool.not_eq_true', not_or, Bool.not_eq_false] at hc
      obtain ⟨⟨h1, h2⟩, h3⟩ := hc
      unfold validateQRFormat
      rw [if_neg (by simpa using hs)]
      rw [hj]
      simp [h1, h2, h3]
  | none =>
    by_cases hf : legacyFullMatch s = true
    · have hs : s.toList ≠ [] := by
        intro he
        unfold legacyFullMatch at hf
        rw [he] at hf
        simp at hf
      have hp : legacyPrefixTest s = true := by
        unfold legacyFullMatch at hf
        unfold legacyPrefixTest
        rcases hl : s.toList with _ | ⟨a, _ | ⟨b, _ | ⟨c, rest⟩⟩⟩ <;> rw [hl] at hf
        · simp at hf
        · simp at hf
        · simp at hf
        · simp only [Bool.and_eq_true] at hf
          simp only [Bool.and_eq_true]
          refine ⟨⟨hf.1.1.1, hf.1.1.2⟩, ?_⟩
          have := hf.2
          simp [List.all_cons] at this
          simp [this.1]
      have hs2 : s ≠ "" := by
        intro he
        rw [he] at hs
        exact hs rfl
      unfold validateQRFormat
      rw [if_neg (by simpa using hs2)]
      rw [hj]
      exact hp
    · simp [parseQRData, hj, hf] at h

theorem decode_ok_implies_validate_witness :
    validateQRFormat "QR42" = true :=
  decode_ok_implies_validate "QR42" (by rfl)

/-- Claim C5: decode of QR42 yields Legacy with id the string 42;
decode of the empty JSON object text and of a non-payload string yields
Invalid; and generally, when JSON parsing fails and the input is exactly
the literal prefix QR followed by one or more digits, decode yields
Legacy carrying the digit substring. -/
theorem parseQR_literals_and_legacy :
    parseQRData "QR42" = QRResult.legacy "42" ∧
    parseQRData "\x7b\x7d" = QRResult.invalid ∧
    parseQRData "not a payload" = QRResult.invalid ∧
    (∀ ds : String, jsonParse ("QR" ++ ds) = none → ds ≠ "" →
      (∀ c ∈ ds.toList, c.isDigit = true) →
      parseQRData ("QR" ++ ds) = QRResult.legacy ds) := by
  refine ⟨rfl, rfl, rfl, ?_⟩
  intro ds hj hne hd
  have hl : ("QR" ++ ds).toList = 'Q' :: 'R' :: ds.toList := rfl
  have hne2 : ds.data ≠ [] := by
    intro he
    exact hne (String.toList_inj.mp (he.trans String.toList_empty.symm))
  have hfm : legacyFullMatch ("QR" ++ ds) = true := by
    unfold legacyFullMatch
    rw [hl]
    simp [List.isEmpty_iff, hne2]
    exact hd
  unfold parseQRData
  rw [hj, if_pos hfm]
  have hrep : replaceOnce ("QR" ++ ds) "QR" "" = ds := by
    unfold replaceOnce
    rw [show ("QR" ++ ds).toList = 'Q' :: 'R' :: ds.toList from rfl]
    simp [replaceOnceAux, List.isPrefixOf]
  rw [hrep]

theorem parseQR_legacy_witness : parseQRData ("QR" ++ "7") = QRResult.legacy "7" :=
  parseQR_literals_and_legacy.2.2.2 "7" (by rfl) (by decide) (by decide)

theorem parseStrAux_escape : ∀ (l rest : List Char),
    parseStrAux (escapeChars l ++ '"' :: rest) = some (l, rest) := by
  intro l
  induction l with
  | nil =>
    intro rest
    simp only [escapeChars, List.nil_append]
    rw [parseStrAux.eq_def]
    simp
  | cons c cs ih =>
    intro rest
    by_cases h1 : c = '"'
    · subst h1
      simp only [escapeChars, escChar, if_pos rfl, List.cons_append, List.append_assoc]
      rw [parseStrAux.eq_def]
      simp [unescapeChar, ih]
    · by_cases h2 : c = '\\'
      · subst h2
        simp only [escapeChars, escChar, h1, if_neg, if_pos rfl, List.cons_append,
          List.append_assoc]
        rw [parseStrAux.eq_def]
        simp [unescapeChar, ih]
      · simp only [escapeChars, escChar, h1, h2, if_neg, List.cons_append, List.singleton_append]
        rw [parseStrAux.eq_def]
        simp [h1, h2, ih]

theorem digitChar_isDigit (n : Nat) (h : n < 10) : (digitChar n).isDigit = true := by
  interval_cases n <;> decide

theorem digitChar_toNat (n : Nat) (h : n < 10) : (digitChar n).toNat - 48 = n := by
  interval_cases n <;> decide

theorem natDigitsAux_all_digit : ∀ (f n : Nat), ∀ c ∈ natDigitsAux f n, c.isDigit = true := by
  intro f
  induction f with
  | zero => intro n c hc; simp [natDigitsAux] at hc
  | succ f ih =>
    intro n c hc
    by_cases h : n < 10
    · simp [natDigitsAux, h] at hc
      subst hc
      exact digitChar_isDigit n h
    · simp [natDigitsAux, h] at hc
      rcases hc with hc | hc
      · exact ih _ c hc
      · subst hc
        exact digitChar_isDigit _ (Nat.mod_lt n (by omega))

theorem natDigitsAux_ne_nil (f n : Nat) (h : 0 < f) : natDigitsAux f n ≠ [] := by
  cases f with
  | zero => omega
  | succ f =>
    by_cases h10 : n < 10 <;> simp [natDigitsAux, h10]

theorem natDigitsAux_foldl : ∀ (f n acc : Nat), n < 10 ^ f →
    (natDigitsAux f n).foldl (fun a c => a * 10 + (c.toNat - 48)) acc
      = acc * 10 ^ (natDigitsAux f n).length + n := by
  intro f
  induction f with
  | zero => intro n acc h; simp at h; simp [natDigitsAux, h]
  | succ f ih =>
    intro n acc h
    by_cases h10 : n < 10
    · simp [natDigitsAux, h10, List.foldl, digitChar_toNat n h10]
    · have hdiv : n / 10 < 10 ^ f := by
        rw [Nat.div_lt_iff_lt_mul (by omega)]
        calc n < 10 ^ (f + 1) := h
        _ = 10 ^ f * 10 := by rw [Nat.pow_succ]
      simp only [natDigitsAux, if_neg h10, List.foldl_append, List.foldl_cons, List.foldl_nil,
        List.length_append, List.length_cons, List.length_nil]
      rw [ih (n / 10) acc hdiv]
      rw [digitChar_toNat _ (Nat.mod_lt n (by omega))]
      rw [Nat.pow_succ]
      have := Nat.div_add_mod n 10
      ring_nf
      omega

theorem natChars_all_digit (n : Nat) : ∀ c ∈ natChars n, c.isDigit = true :=
  natDigitsAux_all_digit (n + 1) n

theorem natChars_ne_nil (n : Nat) : natChars n ≠ [] :=
  natDigitsAux_ne_nil (n + 1) n (by omega)

theorem natChars_foldl (n : Nat) :
    (natChars n).foldl (fun a c => a * 10 + (c.toNat - 48)) 0 = n := by
  have hlt : n < 10 ^ (n + 1) := by
    calc n < 10 ^ n := Nat.lt_pow_self (by norm_num) n
    _ ≤ 10 ^ (n + 1) := Nat.pow_le_pow_right (by norm_num) (by omega)
  have := natDigitsAux_foldl (n + 1) n 0 hlt
  simpa [natChars] using this

theorem parseDigitsAux_append : ∀ (ds rest : List Char) (acc : Nat),
    (∀ c ∈ ds, c.isDigit = true) → headNotDigit rest →
    parseDigitsAux (ds ++ rest) acc
      = (ds.foldl (fun a c => a * 10 + (c.toNat - 48)) acc, rest) := by
  intro ds
  induction ds with
  | nil =>
    intro rest acc _ hr
    cases rest with
    | nil => rfl
    | cons c cs =>
      have := hr c rfl
      simp [parseDigitsAux, this]
  | cons d ds ih =>
    intro rest acc hd hr
    have hdig : d.isDigit = true := hd d (by simp)
    simp only [List.cons_append, parseDigitsAux, hdig, if_pos, List.foldl_cons]
    exact ih rest _ (fun c hc => hd c (by simp [hc])) hr

theorem isDigit_not_ws (c : Char) (h : c.isDigit = true) : isWsChar c = false := by
  cases hw : isWsChar c
  · rfl
  · exfalso
    simp only [isWsChar, Bool.or_eq_true, beq_iff_eq] at hw
    rcases hw with ((h1 | h1) | h1) | h1 <;> (subst h1; exact absurd h (by decide))

/-- Dropping whitespace does nothing when the head is not whitespace. -/
theorem skipWs_cons_of_not_ws (c : Char) (l : List Char) (h : isWsChar c = false) :
    skipWs (c :: l) = c :: l := by
  simp [skipWs, h]

theorem isDigit_ne (c : Char) (h : c.isDigit = true) :
    c ≠ '"' ∧ c ≠ braceL ∧ c ≠ '[' ∧ c ≠ 'n' ∧ c ≠ 't' ∧ c ≠ 'f' ∧ c ≠ '-' := by
  refine ⟨?_, ?_, ?_, ?_, ?_, ?_, ?_⟩ <;>
    (intro he; subst he; exact absurd h (by decide))

theorem parseValueF_succ (f : Nat) :
    parseValueF (f + 1) = parseValueBody (parseValueF f) (parseMembersF f) ((jsonParsers f).2.2) := by
  simp [parseValueF, parseMembersF, jsonParsers]

theorem parseMembersF_succ (f : Nat) :
    parseMembersF (f + 1) = parseMembersBody (parseValueF f) (parseMembersF f) := by
  simp [parseValueF, parseMembersF, jsonParsers]

theorem parseValueF_natChars (f n : Nat) (rest : List Char) (hr : headNotDigit rest) :
    parseValueF (f + 1) (natChars n ++ rest) = some (Json.num (n : Int), rest) := by
  obtain ⟨d, ds, hds⟩ : ∃ d ds, natChars n = d :: ds := by
    cases hnc : natChars n with
    | nil => exact absurd hnc (natChars_ne_nil n)
    | cons d ds => exact ⟨d, ds, rfl⟩
  have hdig : d.isDigit = true := by
    apply natChars_all_digit n
    rw [hds]; simp
  have hne := isDigit_ne d hdig
  rw [hds]
  simp only [List.cons_append]
  rw [parseValueF_succ]
  simp only [parseValueBody]
  rw [skipWs_cons_of_not_ws d _ (isDigit_not_ws d hdig)]
  simp only [hne.1, hne.2.1, hne.2.2.1, hne.2.2.2.1, hne.2.2.2.2.1, hne.2.2.2.2.2.1,
    hne.2.2.2.2.2.2, if_neg, hdig, if_pos]
  have hall : ∀ c ∈ ds, c.isDigit = true := by
    intro c hc
    apply natChars_all_digit n
    rw [hds]; simp [hc]
  have hstep : parseDigitsAux (ds ++ rest) (d.toNat - 48) = (n, rest) := by
    have h0 : parseDigitsAux ((d :: ds) ++ rest) 0 = (n, rest) := by
      have hcons : ∀ c ∈ d :: ds, c.isDigit = true := by
        intro c hc
        rcases List.mem_cons.mp hc with hcc | hcc
        · subst hcc; exact hdig
        · exact hall c hcc
      rw [parseDigitsAux_append (d :: ds) rest 0 hcons hr]
      rw [← hds, natChars_foldl]
    simp only [List.cons_append, parseDigitsAux, hdig, if_pos] at h0
    simpa using h0
  rw [hstep]
  simp

theorem parseValueF_strLit (f : Nat) (s : String) (rest : List Char) :
    parseValueF (f + 1) (stringifyScalar (Json.str s) ++ rest) = some (Json.str s, rest) := by
  simp only [stringifyScalar, List.cons_append, List.append_assoc, List.singleton_append]
  rw [parseValueF_succ]
  simp only [parseValueBody]
  rw [skipWs_cons_of_not_ws '"' _ (by decide)]
  simp [parseStrAux_escape]

theorem parseValueF_scalar (v : Json) (f : Nat) (rest : List Char) (hv : scalarForQR v)
    (hr : headNotDigit rest) :
    parseValueF (f + 1) (stringifyScalar v ++ rest) = some (v, rest) := by
  cases v with
  | str s => exact parseValueF_strLit f s rest
  | num n =>
    have h0 : 0 ≤ n := hv
    have hnn : ¬(n < 0) := not_lt.mpr h0
    simp only [stringifyScalar, if_neg hnn]
    rw [parseValueF_natChars f n.toNat rest hr]
    rw [Int.toNat_of_nonneg h0]
  | null => exact absurd hv (by simp [scalarForQR])
  | bool b => exact absurd hv (by simp [scalarForQR])
  | arr xs => exact absurd hv (by simp [scalarForQR])
  | obj kvs => exact absurd hv (by simp [scalarForQR])

theorem parseMembersF_serialized : ∀ (kvs : List (String × Json)) (f : Nat) (rest : List Char),
    kvs ≠ [] → (∀ kv ∈ kvs, scalarForQR kv.2) → kvs.length + 1 ≤ f →
    parseMembersF f (memberChars kvs ++ braceR :: rest) = some (kvs, rest) := by
  intro kvs
  induction kvs with
  | nil => intro f rest hne _ _; exact absurd rfl hne
  | cons kv tl ih =>
    intro f rest _ hsc hf
    obtain ⟨k, v⟩ := kv
    simp only [List.length_cons] at hf
    cases f with
    | zero => omega
    | succ g =>
      cases g with
      | zero => omega
      | succ g2 =>
        have hb1 : braceR ≠ ',' := by decide
        have hb2 : (',' : Char) ≠ braceR := by decide
        cases tl with
        | nil =>
          have hbr : headNotDigit (braceR :: rest) := by
            intro c hc
            simp at hc
            subst hc
            decide
          have hpv : parseValueF (g2 + 1) (stringifyScalar v ++ braceR :: rest)
              = some (v, braceR :: rest) :=
            parseValueF_scalar v g2 (braceR :: rest) (hsc (k, v) (by simp)) hbr
          have hsw1 : skipWs (':' :: (stringifyScalar v ++ braceR :: rest))
              = ':' :: (stringifyScalar v ++ braceR :: rest) :=
            skipWs_cons_of_not_ws _ _ (by decide)
          have hsw2 : skipWs (braceR :: rest) = braceR :: rest :=
            skipWs_cons_of_not_ws _ _ (by decide)
          simp only [memberChars, List.cons_append, List.append_assoc, List.nil_append]
          rw [parseMembersF_succ]
          simp only [parseMembersBody]
          rw [skipWs_cons_of_not_ws '"' _ (by decide)]
          simp only [parseStrAux_escape, hsw1, hpv, hsw2, hb1]
          simp
        | cons kv2 tl2 =>
          have hcm : headNotDigit (',' :: (memberChars (kv2 :: tl2) ++ braceR :: rest)) := by
            intro c hc
            simp at hc
            subst hc
            decide
          have hpv : parseValueF (g2 + 1)
              (stringifyScalar v ++ ',' :: (memberChars (kv2 :: tl2) ++ braceR :: rest))
              = some (v, ',' :: (memberChars (kv2 :: tl2) ++ braceR :: rest)) :=
            parseValueF_scalar v g2 _ (hsc (k, v) (by simp)) hcm
          have hih : parseMembersF (g2 + 1) (memberChars (kv2 :: tl2) ++ braceR :: rest)
              = some (kv2 :: tl2, rest) := by
            apply ih (g2 + 1) rest (by simp) (fun x hx => hsc x (by simp [hx]))
            simp only [List.length_cons] at hf ⊢
            omega
          have hsw1 : skipWs (':' :: (stringifyScalar v
                ++ ',' :: (memberChars (kv2 :: tl2) ++ braceR :: rest)))
              = ':' :: (stringifyScalar v
                ++ ',' :: (memberChars (kv2 :: tl2) ++ braceR :: rest)) :=
            skipWs_cons_of_not_ws _ _ (by decide)
          have hsw2 : skipWs (',' :: (memberChars (kv2 :: tl2) ++ braceR :: rest))
              = ',' :: (memberChars (kv2 :: tl2) ++ braceR :: rest) :=
            skipWs_cons_of_not_ws _ _ (by decide)
          have hmc : memberChars ((k, v) :: kv2 :: tl2)
              = ('"' :: (escapeChars k.toList ++ '"' :: ':' :: stringifyScalar v))
                ++ ',' :: memberChars (kv2 :: tl2) := rfl
          rw [hmc]
          simp only [List.cons_append, List.append_assoc]
          rw [parseMembersF_succ]
          simp only [parseMembersBody]
          rw [skipWs_cons_of_not_ws '"' _ (by decide)]
          simp only [parseStrAux_escape, hsw1, hpv, hsw2, hih, hb2]
          simp

theorem parseValueF_flatObj (kvs : List (String × Json)) (f : Nat) (rest : List Char)
    (hne : kvs ≠ []) (hsc : ∀ kv ∈ kvs, scalarForQR kv.2) (hf : kvs.length + 2 ≤ f) :
    parseValueF f (stringifyFlatObj kvs ++ rest) = some (Json.obj kvs, rest) := by
  cases f with
  | zero => omega
  | succ g =>
    have hshape : stringifyFlatObj kvs ++ rest = braceL :: (memberChars kvs ++ braceR :: rest) := by
      simp [stringifyFlatObj, List.append_assoc]
    rw [hshape, parseValueF_succ]
    simp only [parseValueBody]
    rw [skipWs_cons_of_not_ws braceL _ (by decide)]
    obtain ⟨T, hT⟩ : ∃ T, memberChars kvs = '"' :: T := by
      cases kvs with
      | nil => exact absurd rfl hne
      | cons kv tl =>
        obtain ⟨k, v⟩ := kv
        cases tl with
        | nil => exact ⟨_, rfl⟩
        | cons kv2 tl2 => exact ⟨_, rfl⟩
    have hmem := parseMembersF_serialized kvs g rest hne hsc (by omega)
    have hq1 : braceL ≠ '"' := by decide
    have hq2 : ('"' : Char) ≠ braceR := by decide
    have hmem2 : parseMembersF g ('"' :: (T ++ braceR :: rest)) = some (kvs, rest) := by
      rw [show ('"' : Char) :: (T ++ braceR :: rest) = memberChars kvs ++ braceR :: rest from by
        rw [hT]; simp]
      exact hmem
    rw [hT]
    simp only [List.cons_append]
    rw [skipWs_cons_of_not_ws '"' _ (by decide)]
    simp [hq1, hq2, hmem2]

theorem jsonParse_createProfileQRData (id : Nat) (name ts : String) :
    jsonParse (createProfileQRData id name ts)
      = some (Json.obj (profileQRFields id name ts)) := by
  unfold jsonParse
  have htl : (createProfileQRData id name ts).toList
      = stringifyFlatObj (profileQRFields id name ts) := rfl
  rw [htl]
  have hlen : 5 ≤ (memberChars (profileQRFields id name ts)).length := by
    simp [profileQRFields, memberChars, List.length_append, escapeChars, escChar,
      stringifyScalar]
  have hlen2 : 7 ≤ (stringifyFlatObj (profileQRFields id name ts)).length + 1 := by
    simp only [stringifyFlatObj, List.length_cons, List.length_append]
    simp
    omega
  have hsc : ∀ kv ∈ profileQRFields id name ts, scalarForQR kv.2 := by
    intro kv hkv
    simp only [profileQRFields, List.mem_cons] at hkv
    rcases hkv with h | h | h | h | h | h
    all_goals first
      | (subst h; simp [scalarForQR])
      | simp at h
  have hflen : (profileQRFields id name ts).length = 5 := by simp [profileQRFields]
  have hobj := parseValueF_flatObj (profileQRFields id name ts)
    ((stringifyFlatObj (profileQRFields id name ts)).length + 1) []
    (by simp [profileQRFields]) hsc (by rw [hflen]; omega)
  rw [List.append_nil] at hobj
  rw [hobj]
  simp [skipWs]

/-- Claim C4 (amended): for every nonzero profile id and every profile
name (and encode timestamp), decode of the encoded payload yields
Structured carrying the very payload object, whose id and name fields
round-trip unchanged.  The restriction to nonzero ids is forced by the
truthiness test in decode (see the counterexample and claim C10). -/
theorem encode_decode_roundtrip (id : Nat) (name ts : String) (h : id ≠ 0) :
    parseQRData (createProfileQRData id name ts)
      = QRResult.structured (Json.obj (profileQRFields id name ts)) ∧
    jsGetField (Json.obj (profileQRFields id name ts)) "id" = some (Json.num (id : Int)) ∧
    jsGetField (Json.obj (profileQRFields id name ts)) "name" = some (Json.str name) := by
  have hid : jsGetField (Json.obj (profileQRFields id name ts)) "id"
      = some (Json.num (id : Int)) := rfl
  have hname : jsGetField (Json.obj (profileQRFields id name ts)) "name"
      = some (Json.str name) := rfl
  have htype : jsGetField (Json.obj (profileQRFields id name ts)) "type"
      = some (Json.str "profile") := rfl
  have happ : jsGetField (Json.obj (profileQRFields id name ts)) "app"
      = some (Json.str "lansia-health") := rfl
  refine ⟨?_, hid, hname⟩
  unfold parseQRData
  rw [jsonParse_createProfileQRData]
  have hidnz : ((id : Int) != 0) = true := by
    simp [h]
  simp [htype, hid, happ, jsTruthy, jsStrictEqStr, hidnz]

theorem encode_decode_roundtrip_witness :
    parseQRData (createProfileQRData 7 "Siti" "2024-05-01T00:00:00.000Z")
      = QRResult.structured
          (Json.obj (profileQRFields 7 "Siti" "2024-05-01T00:00:00.000Z")) ∧
    jsGetField (Json.obj (profileQRFields 7 "Siti" "2024-05-01T00:00:00.000Z")) "id"
      = some (Json.num 7) ∧
    jsGetField (Json.obj (profileQRFields 7 "Siti" "2024-05-01T00:00:00.000Z")) "name"
      = some (Json.str "Siti") :=
  encode_decode_roundtrip 7 "Siti" "2024-05-01T00:00:00.000Z" (by decide)

/-- Counterexample for claim C4: the encode-then-decode round trip
fails for profile id 0 — decode classifies the encoded payload Invalid
because the id field is tested by truthiness. -/
theorem encode_decode_roundtrip_cex :
    parseQRData (createProfileQRData 0 "Budi" "2024-01-01T00:00:00.000Z")
      = QRResult.invalid := rfl

/-- Claim C10: when the input parses as JSON with the expected app tag
but its id field (or its type field) is falsy — absent, 0, or the empty
string — decode returns Invalid, because field presence is tested by
truthiness; consequently decode of encode(0, name) is Invalid for every
name. -/
theorem falsy_id_or_type_decodes_invalid :
    (∀ s data, jsonParse s = some data →
      jsStrictEqStr (jsGetField data "app") "lansia-health" = true →
      (jsTruthy (jsGetField data "id") = false ∨ jsTruthy (jsGetField data "type") = false) →
      parseQRData s = QRResult.invalid) ∧
    (∀ name ts, parseQRData (createProfileQRData 0 name ts) = QRResult.invalid) := by
  constructor
  · intro s data hp _ hfalsy
    unfold parseQRData
    rw [hp]
    rcases hfalsy with hf | hf <;> simp [hf]
  · intro name ts
    unfold parseQRData
    rw [jsonParse_createProfileQRData]
    have hid : jsGetField (Json.obj (profileQRFields 0 name ts)) "id"
        = some (Json.num 0) := rfl
    simp [hid, jsTruthy]

theorem falsy_id_decodes_invalid_witness :
    parseQRData "\x7b\"id\":0,\"app\":\"lansia-health\"\x7d" = QRResult.invalid :=
  falsy_id_or_type_decodes_invalid.1 "\x7b\"id\":0,\"app\":\"lansia-health\"\x7d"
    (Json.obj [("id", Json.num 0), ("app", Json.str "lansia-health")])
    (by rfl) (by rfl) (Or.inl (by rfl))
